import Mathlib

/-!
Verification development for `scripts/standalone_cambridge.py`, a standalone
Cambridge Dictionary scraper.  The HTML DOM (as produced by BeautifulSoup's
`html.parser` tree builder) is modelled as a first-order forest; the
BeautifulSoup operations the script uses (`find`, `find_all`, `find_parent`,
`get_text`, attribute access, class matching) are embedded as executable Lean
functions, and the script's pure functions (`normalize_text`,
`extract_definitions`, `parse_cambridge`, `build_url`, `render_html`) are
translated on top of them.  Two of the script's operations can raise:
`block.get("class", [""])[0]` raises `IndexError` when BeautifulSoup
(≥ 4.7.0) parses a present but empty/whitespace-only `class` attribute to
`[]`, and `format_definition`'s `re.findall` pattern is syntactically
invalid, so it raises `re.error` whenever its `tag_match` regex matches.
Each function with such a path therefore has two embeddings: a total one
giving the no-exception semantics (`parse_cambridge`, used by the theorems
about parsing behaviour) and an `Except`-valued one propagating the
exception (`parse_cambridgeE`, `render_htmlE`); the theorem
`parse_cambridgeE_ok_of_wellClassed` proves the two parsers agree on every
document without a degenerate class attribute.  Network fetching
(`fetch_html`) and the CLI wrapper (`main`) perform I/O and are not
modelled beyond the pure URL construction they rely on.
-/

namespace Cambridge

/-- Whitespace as recognised by Python's `str.strip`, `str.isspace` and the
`re` module's `\s` for `str` patterns (ASCII whitespace plus the common
Unicode space characters). -/
def isPyWS (c : Char) : Bool :=
  c = ' ' || c = '\t' || c = '\n' || c.val = 0x0d || c.val = 0x0b || c.val = 0x0c ||
  c.val = 0x1c || c.val = 0x1d || c.val = 0x1e || c.val = 0x1f ||
  c.val = 0x85 || c.val = 0xa0 || c.val = 0x1680 ||
  (0x2000 <= c.val && c.val <= 0x200a) ||
  c.val = 0x2028 || c.val = 0x2029 || c.val = 0x202f || c.val = 0x205f ||
  c.val = 0x3000

/-- Python `str.strip()`: remove leading and trailing whitespace. -/
def pyStrip (s : String) : String :=
  ⟨(((s.data.dropWhile isPyWS).reverse.dropWhile isPyWS).reverse)⟩

/-- Python `sep.join(parts)`. -/
def pyJoin (sep : String) : List String → String
  | [] => ""
  | [x] => x
  | x :: y :: rest => x ++ sep ++ pyJoin sep (y :: rest)

/-- BeautifulSoup's parsing of a multi-valued attribute value into a list of
class names, as every release since 4.7.0 does it: `re.findall(r"\S+", value)`,
the list of maximal non-whitespace runs.  An empty or whitespace-only
attribute value therefore parses to the empty list (the accumulator holds
the current run, reversed). -/
def splitClassNamesAux : List Char → List Char → List String
  | [], cur => if cur.isEmpty then [] else [⟨cur.reverse⟩]
  | c :: rest, cur =>
    if isPyWS c then
      if cur.isEmpty then splitClassNamesAux rest []
      else (⟨cur.reverse⟩ : String) :: splitClassNamesAux rest []
    else splitClassNamesAux rest (c :: cur)

/-- BeautifulSoup (≥ 4.7.0) class-attribute parsing: `re.findall(r"\S+", value)`. -/
def splitClassNames (s : String) : List String := splitClassNamesAux s.data []

/-- An HTML forest: a sequence of sibling nodes, where an element node carries
its children as a nested forest.  This first-order encoding of the
BeautifulSoup node tree keeps every traversal structurally recursive. -/
inductive Forest where
  | nil : Forest
  | text (s : String) (rest : Forest) : Forest
  | elem (name : String) (attrs : List (String × String)) (children : Forest)
      (rest : Forest) : Forest
deriving DecidableEq

/-- View of a single DOM node: either a `NavigableString` or a `Tag` with its
name, attribute list and children. -/
inductive NodeV where
  | text (s : String)
  | elem (name : String) (attrs : List (String × String)) (children : Forest)
deriving DecidableEq

/-- Children of a node, as a forest (a text node has none). -/
def NodeV.childrenF : NodeV → Forest
  | .text _ => .nil
  | .elem _ _ ch => ch

/-- The top-level nodes of a forest, in document order. -/
def Forest.toNodes : Forest → List NodeV
  | .nil => []
  | .text s r => .text s :: r.toNodes
  | .elem nm a ch r => .elem nm a ch :: r.toNodes

/-- Number of nodes in a forest (used as a recursion bound for the
fuel-indexed traversal `extract_sense`). -/
def Forest.size : Forest → Nat
  | .nil => 0
  | .text _ r => 1 + r.size
  | .elem _ _ ch r => 1 + ch.size + r.size

/-- Attribute lookup (`tag.get(name)` / `tag[name]` on a BeautifulSoup tag):
first binding wins, `none` when absent or when the node is a string. -/
def NodeV.attr? : NodeV → String → Option String
  | .text _, _ => none
  | .elem _ attrs _, k => (attrs.lookup k)

/-- The parsed multi-valued `class` attribute of a node: `none` when the
attribute is absent, otherwise the `re.findall(r"\S+", value)` list, which
is empty when the attribute value is empty or whitespace-only. -/
def NodeV.classesOpt (n : NodeV) : Option (List String) :=
  (n.attr? "class").map splitClassNames

/-- Total, defined-case reading of `tag.get("class", [""])[0]`: `""` when
the attribute is absent (then the default `[""]` is indexed), otherwise the
first parsed class name.  When the attribute is present but parses to the
empty list the real expression raises `IndexError`; that path is modelled
faithfully by `firstClassE` and the exception-aware parser
`parse_cambridgeE`, and this total variant (returning `""` there) is what
the no-exception parser `parse_cambridge` uses — the two agree on every
document without such degenerate class attributes
(`parse_cambridgeE_ok_of_wellClassed`). -/
def firstClass (n : NodeV) : String :=
  match n.classesOpt with
  | none => ""
  | some l => l.headD ""

/-- Exception-aware embedding of `tag.get("class", [""])[0]` (line 281 and
line 414 of the source): an absent attribute indexes the default `[""]` and
yields `""`; a present attribute whose parsed class list is empty raises
`IndexError`. -/
def firstClassE (n : NodeV) : Except String String :=
  match n.attr? "class" with
  | none => .ok ""
  | some v =>
    match splitClassNames v with
    | [] => .error "IndexError: list index out of range"
    | c :: _ => .ok c

/-- A node on which the class indexing cannot raise: either no `class`
attribute, or one whose parsed class list is non-empty. -/
def classOK (n : NodeV) : Bool :=
  match n.attr? "class" with
  | none => true
  | some v => !(splitClassNames v).isEmpty

/-- Every node of the forest satisfies `classOK` (so no class indexing
anywhere in the document can raise). -/
def Forest.wellClassed : Forest → Bool
  | .nil => true
  | .text _ r => r.wellClassed
  | .elem nm a ch r => classOK (.elem nm a ch) && ch.wellClassed && r.wellClassed

/-- Tag-name test: BeautifulSoup's `find(name, ...)` matches only `Tag`s with
the given name. -/
def NodeV.isNamed : NodeV → String → Bool
  | .text _, _ => false
  | .elem nm _ _, k => nm = k

/-- BeautifulSoup's matching of a string-valued `class_` filter against a
multi-valued class attribute: the filter matches if it equals one of the
parsed class names, or the space-joined full list (this second case is how a
multi-word filter such as `"phrase-body pad-indent"` matches). -/
def classStrMatch (cls : String) (n : NodeV) : Bool :=
  match n.classesOpt with
  | none => false
  | some l => l.contains cls || pyJoin " " l = cls

/-- A located node: the node itself together with its chain of ancestors,
innermost first (what `find_parent` walks). -/
structure Loc where
  node : NodeV
  ancestors : List NodeV
deriving DecidableEq

/-- All nodes of a forest in document (pre-)order, each with its ancestor
chain; `anc` is the ancestor chain shared by the forest's roots. -/
def descLocs : Forest → List NodeV → List Loc
  | .nil, _ => []
  | .text s r, anc => ⟨.text s, anc⟩ :: descLocs r anc
  | .elem nm a ch r, anc =>
      ⟨.elem nm a ch, anc⟩ ::
        (descLocs ch (.elem nm a ch :: anc) ++ descLocs r anc)

/-- Descendants of a located node (excluding itself), in document order, as
located nodes — the search space of `tag.find_all(...)`. -/
def Loc.descendants (l : Loc) : List Loc :=
  descLocs l.node.childrenF (l.node :: l.ancestors)

/-- `tag.find_all(filter)`: all matching descendants in document order. -/
def Loc.findAll (l : Loc) (p : NodeV → Bool) : List Loc :=
  l.descendants.filter (fun x => p x.node)

/-- `tag.find(filter)`: the first matching descendant. -/
def Loc.find (l : Loc) (p : NodeV → Bool) : Option Loc :=
  (l.findAll p).head?

/-- `tag.find_parent(filter)`: the nearest enclosing node matching the
filter. -/
def Loc.findParent (l : Loc) (p : NodeV → Bool) : Option NodeV :=
  l.ancestors.find? p

/-- Descendants of a bare node (used where the script only reads text or
attributes from the result, so the ancestor chain is irrelevant). -/
def NodeV.descendants (n : NodeV) : List NodeV :=
  (descLocs n.childrenF []).map Loc.node

/-- `tag.find_all(filter)` returning bare nodes. -/
def NodeV.findAllN (n : NodeV) (p : NodeV → Bool) : List NodeV :=
  n.descendants.filter p

/-- `tag.find(filter)` returning a bare node. -/
def NodeV.findN (n : NodeV) (p : NodeV → Bool) : Option NodeV :=
  (n.findAllN p).head?

/-- All `NavigableString` contents in a forest, in document order. -/
def Forest.texts : Forest → List String
  | .nil => []
  | .text s r => s :: r.texts
  | .elem _ _ ch r => ch.texts ++ r.texts

/-- Strings below a node, in document order (what `get_text` joins). -/
def NodeV.texts (n : NodeV) : List String := n.childrenF.texts

/-- `tag.get_text()`: concatenation of all contained strings. -/
def NodeV.getText (n : NodeV) : String := String.join n.texts

/-- `tag.get_text(sep, strip=True)`: each contained string stripped, empty
pieces dropped, remainder joined with `sep`. -/
def NodeV.getTextSepStrip (n : NodeV) (sep : String) : String :=
  pyJoin sep ((n.texts.map pyStrip).filter (fun s => s ≠ ""))

/-- `tag.get_text(strip=True)`: as above with the empty separator. -/
def NodeV.getTextStrip (n : NodeV) : String :=
  String.join ((n.texts.map pyStrip).filter (fun s => s ≠ ""))

/-- One pass of `re.sub(r"\s+", " ", text)`: each maximal whitespace run
becomes a single space (the flag records whether the previous character was
whitespace). -/
def collapseWSAux : Bool → List Char → List Char
  | _, [] => []
  | prevWS, c :: rest =>
    if isPyWS c then
      if prevWS then collapseWSAux true rest
      else ' ' :: collapseWSAux true rest
    else c :: collapseWSAux false rest

/-- Python `re.sub(r"\s+", " ", text)`. -/
def collapseWS (s : String) : String := ⟨collapseWSAux false s.data⟩

/-- The punctuation class of `normalize_text`'s second substitution. -/
def isPunctCls (c : Char) : Bool :=
  c = ',' || c = '.' || c = ';' || c = ':' || c = '!' || c = '?'

/-- Python `re.sub(r"\s+([,.;:!?])", r"\1", text)`: a whitespace run
immediately followed by one of the punctuation characters is deleted.  The
first argument buffers the pending whitespace run (reversed). -/
def subPunctAux : List Char → List Char → List Char
  | pend, [] => pend.reverse
  | pend, c :: rest =>
    if isPyWS c then subPunctAux (c :: pend) rest
    else if isPunctCls c && !pend.isEmpty then c :: subPunctAux [] rest
    else pend.reverse ++ c :: subPunctAux [] rest

/-- Python `re.sub(r"\s+([,.;:!?])", r"\1", text)`. -/
def subPunct (s : String) : String := ⟨subPunctAux [] s.data⟩

/-- Python `re.sub(r"\(\s+", "(", text)`: whitespace directly after an
opening parenthesis is deleted (the flag records that we are inside such a
run). -/
def subParenOpenAux : Bool → List Char → List Char
  | _, [] => []
  | skipws, c :: rest =>
    if skipws && isPyWS c then subParenOpenAux true rest
    else if c = '(' then '(' :: subParenOpenAux true rest
    else c :: subParenOpenAux false rest

/-- Python `re.sub(r"\(\s+", "(", text)`. -/
def subParenOpen (s : String) : String := ⟨subParenOpenAux false s.data⟩

/-- Python `re.sub(r"\s+\)", ")", text)`: a whitespace run immediately
followed by a closing parenthesis is deleted. -/
def subParenCloseAux : List Char → List Char → List Char
  | pend, [] => pend.reverse
  | pend, c :: rest =>
    if isPyWS c then subParenCloseAux (c :: pend) rest
    else if c = ')' && !pend.isEmpty then ')' :: subParenCloseAux [] rest
    else pend.reverse ++ c :: subParenCloseAux [] rest

/-- Python `re.sub(r"\s+\)", ")", text)`. -/
def subParenClose (s : String) : String := ⟨subParenCloseAux [] s.data⟩

/-- Embedding of `normalize_text`: collapse whitespace and strip, then the
three punctuation/parenthesis substitutions, in source order. -/
def normalize_text (text : String) : String :=
  subParenClose (subParenOpen (subPunct (pyStrip (collapseWS text))))

/-- Embedding of the module constant `CAMBRIDGE_BASE`. -/
def CAMBRIDGE_BASE : String := "https://dictionary.cambridge.org/"

/-- Embedding of the module constant `LANG_URLS` (insertion order kept). -/
def LANG_URLS : List (String × String) :=
  [("en", "https://dictionary.cambridge.org/dictionary/english/"),
   ("en-zh-s", "https://dictionary.cambridge.org/us/dictionary/english-chinese-simplified/"),
   ("en-zh-t", "https://dictionary.cambridge.org/us/dictionary/english-chinese-traditional/")]

/-- Embedding of `build_url`: `LANG_URLS.get(lang)` followed by the
`if not base` truthiness test (absent key or empty base raises
`ValueError(f"Unsupported language key: {lang}")`, modelled as `Except.error`). -/
def build_url (word lang : String) : Except String String :=
  match LANG_URLS.lookup lang with
  | none => .error ("Unsupported language key: " ++ lang)
  | some base =>
    if base = "" then .error ("Unsupported language key: " ++ lang)
    else .ok (base ++ word)

/-- Filter for `find(name, class_="cls")` with a plain string class filter. -/
def tagClass (nm cls : String) (n : NodeV) : Bool :=
  n.isNamed nm && classStrMatch cls n

/-- Helper for string containment: does `needle` occur as a contiguous block
in `hay`? -/
def containsSubAux (needle : List Char) : List Char → Bool
  | [] => needle.isEmpty
  | c :: rest => needle.isPrefixOf (c :: rest) || containsSubAux needle rest

/-- String containment (Python's `in` on `str`, and `re.search` of a literal
pattern). -/
def containsSub (hay sub : String) : Bool := containsSubAux sub.data hay.data

/-- Filter for `find("div", class_=re.compile("sense-body|runon-body pad-indent"))`:
the regex is `search`ed against each parsed class name and against the
space-joined class list. -/
def senseBodyRe (n : NodeV) : Bool :=
  n.isNamed "div" &&
    (match n.classesOpt with
     | none => false
     | some l =>
       (l ++ [pyJoin " " l]).any
         (fun s => containsSub s "sense-body" || containsSub s "runon-body pad-indent"))

/-- Filter for `find_parent("div", class_=lambda c: c and "dsense" in c)`:
the callable is applied to each parsed class name and to the space-joined
class list, and to `None` (no match) when the attribute is absent. -/
def dsenseFn (n : NodeV) : Bool :=
  n.isNamed "div" &&
    (match n.classesOpt with
     | none => false
     | some l => (l ++ [pyJoin " " l]).any (fun s => !(s = "") && containsSub s "dsense"))

/-- Filter for `find("source", type="audio/mpeg")`. -/
def sourceAudio (n : NodeV) : Bool :=
  n.isNamed "source" && n.attr? "type" == some "audio/mpeg"

/-- Filter for `find("img", class_="lightboxLink")`. -/
def imgLightbox (n : NodeV) : Bool :=
  n.isNamed "img" && classStrMatch "lightboxLink" n

/-- Python truthiness of an optional string (`None` and `""` are falsy). -/
def optTruthy : Option String → Bool
  | none => false
  | some s => !(s = "")

/-- Embedding of the `next_guideword` closure of `parse_cambridge`: the
closure state is the document-wide guideword list (immutable) and the
running index. -/
def next_guideword (gws : List String) (idx : Nat) : Option String × Nat :=
  match gws.get? idx with
  | some v => (some v, idx + 1)
  | none => (none, idx)

/-- The direct children of a located node, as located nodes (Python's
`for child in tag:` iteration). -/
def childLocs (l : Loc) : List Loc :=
  l.node.childrenF.toNodes.map (fun c => ⟨c, l.node :: l.ancestors⟩)

/-- The guideword override taken from the nearest enclosing `dsense` `div`
(`block.find_parent("div", class_=lambda c: c and "dsense" in c)` followed by
its `span.guideword`), when both exist. -/
def dsenseGuideword (block : Loc) : Option String :=
  match block.findParent dsenseFn with
  | some pd =>
    match pd.findN (tagClass "span" "guideword") with
    | some gt => some (normalize_text (gt.getTextSepStrip " "))
    | none => none
  | none => none

/-- Guideword resolution for one definition block, exactly as in
`extract_sense` (lines 316–323): start from the sense-level `guideword`
argument, override it when the nearest enclosing `dsense` group has a
guideword marker, and when the outcome is falsy consume the next
document-wide guideword from the provider. -/
def guideword_for_block (block : Loc) (gwSense : Option String)
    (gws : List String) (idx : Nat) : Option String × Nat :=
  let gfb : Option String :=
    match dsenseGuideword block with
    | some g => some g
    | none => gwSense
  if optTruthy gfb then (gfb, idx) else next_guideword gws idx

/-- Label extraction: the non-empty `get_text(strip=True)` of every
`span.lab` below the given node. -/
def labelTexts (n : NodeV) : List String :=
  (n.findAllN (tagClass "span" "lab")).filterMap
    (fun lab => let t := lab.getTextStrip; if t ≠ "" then some t else none)

/-- Embedding of the `def-block` / `runon-body` branch of `extract_sense`:
builds the bracketed tag block and the definition/translation/example text,
and appends the combined string to `items`.  Returns the new item list and
the updated guideword-provider index. -/
def extract_defblock (pos_gram : String) (runon_title gwSense phrase : Option String)
    (block : Loc) (items : List String) (gws : List String) (idx : Nat) :
    List String × Nat :=
  let def_info : String :=
    match block.node.findN (tagClass "span" "def-info") with
    | some t =>
      normalize_text ((t.getTextSepStrip " ").replace "‚Ä∫" "")
    | none => ""
  let labelTags1 := labelTexts block.node
  let label_tags :=
    if labelTags1.isEmpty then
      match block.findParent (tagClass "div" "pr") with
      | some pb => labelTexts pb
      | none => []
    else labelTags1
  let definition := block.node.findN (tagClass "div" "def")
  let translation := block.node.findN (tagClass "span" "trans")
  let examples := block.node.findAllN (tagClass "div" "examp dexamp")
  let gw := guideword_for_block block gwSense gws idx
  let tags : List (Option String) :=
    [some pos_gram, runon_title, phrase, gw.1, some (pyStrip def_info)] ++
      label_tags.map some
  let tag_text :=
    pyJoin " " (tags.filterMap (fun o =>
      match o with
      | some s => if s ≠ "" then some ("[" ++ s ++ "]") else none
      | none => none))
  let main_text_parts :=
    (match definition with
     | some d =>
       if d.getTextSepStrip " " ≠ "" then [normalize_text (d.getTextSepStrip " ")] else []
     | none => []) ++
    (match translation with
     | some t =>
       if t.getTextSepStrip " " ≠ "" then [normalize_text (t.getTextSepStrip " ")] else []
     | none => [])
  let example_lines :=
    examples.filterMap (fun e =>
      if e.getTextSepStrip " " ≠ "" then some ("- " ++ normalize_text (e.getTextSepStrip " "))
      else none)
  let text_blocks :=
    (if main_text_parts.isEmpty then [] else [pyStrip (pyJoin " " main_text_parts)]) ++
      example_lines
  let definition_text := pyStrip (pyJoin "\n" text_blocks)
  let full_text := pyJoin " " ([tag_text, definition_text].filter (fun s => s ≠ ""))
  (items ++ [full_text], gw.2)

/-- Embedding of the recursive inner function `extract_sense`: dispatch on
the first class of the block (`def-block`, `phrase-block`, `runon-body`,
anything else is skipped; string nodes are skipped by the `isinstance`
guard).  A phrase block recurses into the children of its
`div.phrase-body pad-indent` body, passing its `span.phrase-head` text (or
`None`) as the phrase.  The fuel argument only bounds that recursion depth;
`parse_cambridge` supplies a fuel exceeding the document size, so it never
runs out. -/
def extract_sense (pos_gram : String) (runon_title gwSense : Option String)
    (gws : List String) :
    Nat → Loc → Option String → List String × Nat → List String × Nat
  | 0, _, _, st => st
  | fuel + 1, block, phrase, st =>
    match block.node with
    | .text _ => st
    | .elem _ _ _ =>
      let blockType := firstClass block.node
      if blockType = "def-block" then
        extract_defblock pos_gram runon_title gwSense phrase block st.1 gws st.2
      else if blockType = "phrase-block" then
        let phrase_header := block.node.findN (tagClass "span" "phrase-head")
        match block.find (tagClass "div" "phrase-body pad-indent") with
        | some pb =>
          (childLocs pb).foldl
            (fun st2 c =>
              extract_sense pos_gram runon_title gwSense gws fuel c
                (phrase_header.map NodeV.getText) st2) st
        | none => st
      else if blockType = "runon-body" then
        extract_defblock pos_gram runon_title gwSense phrase block st.1 gws st.2
      else st

/-- Embedding of `extract_definitions`: run `extract_sense` over the direct
children of the sense body, starting from an empty item list. -/
def extract_definitions (fuel : Nat) (sense_body : Loc) (pos_gram : String)
    (runon_title guideword : Option String) (gws : List String) (idx : Nat) :
    List String × Nat :=
  (childLocs sense_body).foldl
    (fun st block => extract_sense pos_gram runon_title guideword gws fuel block none st)
    ([], idx)

/-- Python dict assignment `d[k] = v` on a string-keyed dict represented as
an insertion-ordered association list: an existing key keeps its position,
a new key is appended. -/
def dictSet (d : List (String × String)) (k v : String) : List (String × String) :=
  if d.any (fun p => p.1 = k) then d.map (fun p => if p.1 = k then (k, v) else p)
  else d ++ [(k, v)]

/-- Python `d.get(k, dflt)`. -/
def dictGet (d : List (String × String)) (k dflt : String) : String :=
  match d.lookup k with
  | some v => v
  | none => dflt

/-- The initial `result["pronunciation"]` dict of `parse_cambridge`. -/
def initPron : List (String × String) :=
  [("AmE", ""), ("BrE", ""), ("AmEmp3", ""), ("BrEmp3", "")]

/-- Text of the `span.region` marker of a pronunciation span
(`region.get_text() if region else ""`). -/
def regionText (tag : NodeV) : String :=
  match tag.findN (tagClass "span" "region") with
  | some r => r.getText
  | none => ""

/-- Text of the `span.pron` phonetic transcription of a pronunciation span
(`pron.get_text() if pron else ""`). -/
def pronText (tag : NodeV) : String :=
  match tag.findN (tagClass "span" "pron") with
  | some p => p.getText
  | none => ""

/-- Body of the pronunciation loop of `parse_cambridge` (lines 395–405), for
one `span.dpron-i`: choose the key from the `span.region` text, store the
`span.pron` text, and—when an audio source with a non-empty `src` is
present—store its URL under `key + "mp3"`. -/
def headerTagStep (pron : List (String × String)) (tag : NodeV) :
    List (String × String) :=
  let reg := regionText tag
  let key := if reg = "us" then "AmE" else "BrE"
  let pron1 := dictSet pron key (pronText tag)
  match tag.findN sourceAudio with
  | some src =>
    match src.attr? "src" with
    | some s => if s ≠ "" then dictSet pron1 (key ++ "mp3") (CAMBRIDGE_BASE ++ s) else pron1
    | none => pron1
  | none => pron1

/-- Embedding of the pronunciation loop of `parse_cambridge` (lines
394–405): `headerTagStep` folded over every `span.dpron-i` under the
header. -/
def processHeaderTags (pron0 : List (String × String)) (header : NodeV) :
    List (String × String) :=
  (header.findAllN (tagClass "span" "dpron-i")).foldl headerTagStep pron0

/-- Embedding of the lightbox-image step of `parse_cambridge` (lines
438–443): when the sense contains an `img.lightboxLink`, each of `image` and
`thumb` is overwritten with `CAMBRIDGE_BASE` plus the corresponding
attribute, but only when that attribute is present and non-empty. -/
def apply_lightbox (sense : NodeV) (image thumb : String) : String × String :=
  match sense.findN imgLightbox with
  | none => (image, thumb)
  | some img =>
    let image2 := match img.attr? "data-image" with
      | some di => if di ≠ "" then CAMBRIDGE_BASE ++ di else image
      | none => image
    let thumb2 := match img.attr? "src" with
      | some s => if s ≠ "" then CAMBRIDGE_BASE ++ s else thumb
      | none => thumb
    (image2, thumb2)

/-- The mutable state of `parse_cambridge`'s entry loop: the result fields,
the guideword-provider index and the `header_found` flag. -/
structure PState where
  pron : List (String × String)
  image : String
  thumb : String
  definitions : List String
  gwIdx : Nat
  headerFound : Bool
deriving DecidableEq

/-- The state at the top of `parse_cambridge`'s entry loop. -/
def initPState : PState := ⟨initPron, "", "", [], 0, false⟩

/-- Embedding of the body of `for sense in senses:` in `parse_cambridge`
(lines 412–443).  The fold state carries the result state and the current
`pos_gram` (which a `runon` sense overwrites for the remaining senses of the
entry). -/
def processSense (fuel : Nat) (gws : List String) :
    PState × String → Loc → PState × String := fun spg sense =>
  let st := spg.1
  let pos_gram := spg.2
  let pgrt :=
    if firstClass sense.node = "runon" then
      let runon_pos := sense.node.findN (tagClass "span" "pos")
      let runon_gram := sense.node.findN (tagClass "span" "gram")
      let pg := match runon_pos with
        | some rp =>
          rp.getText ++ (match runon_gram with | some rg => rg.getText | none => "")
        | none => pos_gram
      let runon_header := sense.node.findN (tagClass "h3" "runon-title")
      (pg, runon_header.map NodeV.getText)
    else (pos_gram, (none : Option String))
  let sense_body := sense.find senseBodyRe
  let guideword_tags := sense.node.findAllN (tagClass "span" "guideword")
  let guideword : Option String :=
    if guideword_tags.length = 1 then
      guideword_tags.head?.map (fun t => normalize_text (t.getTextSepStrip " "))
    else none
  let st2 := match sense_body with
    | some sb =>
      let dfs := extract_definitions fuel sb pgrt.1 pgrt.2 guideword gws st.gwIdx
      { st with definitions := st.definitions ++ dfs.1, gwIdx := dfs.2 }
    | none => st
  let it := apply_lightbox sense.node st2.image st2.thumb
  ({ st2 with image := it.1, thumb := it.2 }, pgrt.1)

/-- Embedding of the body of `for entry in elements:` in `parse_cambridge`
(lines 388–443): pick up pronunciation from the first entry that has a
`div.pos-header`, then fold the senses.  (The `if not entry: continue`
guard in the source is behaviourally irrelevant: an entry with no children
makes every step below a no-op.) -/
def processEntry (fuel : Nat) (gws : List String) (st : PState) (entry : Loc) :
    PState :=
  let st2 :=
    if st.headerFound then st
    else
      match entry.find (tagClass "div" "pos-header") with
      | some h => { st with pron := processHeaderTags st.pron h.node, headerFound := true }
      | none => st
  let senses := entry.findAll (tagClass "div" "pos-body")
  let pos_gram := match entry.find (tagClass "div" "posgram") with
    | some pg => pg.node.getText
    | none => ""
  (senses.foldl (processSense fuel gws) (st2, pos_gram)).1

/-- The record `parse_cambridge` returns (before `main` attaches `word` and
`url`). -/
structure CambridgeResult where
  pronunciation : List (String × String)
  image : String
  thumb : String
  definitions : List String
deriving DecidableEq

/-- Document-level `soup.find(filter)`: first matching node of the whole
document in document order. -/
def soupFind (doc : Forest) (p : NodeV → Bool) : Option Loc :=
  ((descLocs doc []).filter (fun l => p l.node)).head?

/-- Embedding of `parse_cambridge`.  The document is the BeautifulSoup node
tree of the input HTML; the language flag selects the top-level container
class (`page` for English, `di-body` otherwise).  Absence of the container
returns the initial, empty record. -/
def parse_cambridge (doc : Forest) (is_english : Bool) : CambridgeResult :=
  let page_class := if is_english then "page" else "di-body"
  match soupFind doc (tagClass "div" page_class) with
  | none => ⟨initPron, "", "", []⟩
  | some element =>
    let entries := element.findAll (tagClass "div" "entry-body__el")
    let guidewords :=
      (element.node.findAllN (tagClass "span" "guideword")).filterMap
        (fun t =>
          if t.getTextStrip ≠ "" then some (normalize_text (t.getTextSepStrip " "))
          else none)
    let fin := entries.foldl (processEntry (doc.size + 1) guidewords) initPState
    ⟨fin.pron, fin.image, fin.thumb, fin.definitions⟩


/-- Build a forest from a list of nodes (used to write concrete test
documents). -/
def forestOf : List NodeV → Forest
  | [] => .nil
  | .text s :: r => .text s (forestOf r)
  | .elem n a c :: r => .elem n a c (forestOf r)

/-- Element-node constructor for concrete test documents. -/
def tagN (name : String) (attrs : List (String × String)) (kids : List NodeV) :
    NodeV :=
  .elem name attrs (forestOf kids)

/-- Text-node constructor for concrete test documents. -/
def txtN (s : String) : NodeV := .text s


/-- Exception-aware variant of `extract_sense`: identical to
`extract_sense` except that the class dispatch `block.get("class", [""])[0]`
(line 281) is the fallible `firstClassE`, whose `IndexError` propagates. -/
def extract_senseE (pos_gram : String) (runon_title gwSense : Option String)
    (gws : List String) :
    Nat → Loc → Option String → List String × Nat → Except String (List String × Nat)
  | 0, _, _, st => .ok st
  | fuel + 1, block, phrase, st =>
    match block.node with
    | .text _ => .ok st
    | .elem _ _ _ =>
      match firstClassE block.node with
      | .error e => .error e
      | .ok blockType =>
        if blockType = "def-block" then
          .ok (extract_defblock pos_gram runon_title gwSense phrase block st.1 gws st.2)
        else if blockType = "phrase-block" then
          let phrase_header := block.node.findN (tagClass "span" "phrase-head")
          match block.find (tagClass "div" "phrase-body pad-indent") with
          | some pb =>
            (childLocs pb).foldlM
              (fun st2 c =>
                extract_senseE pos_gram runon_title gwSense gws fuel c
                  (phrase_header.map NodeV.getText) st2) st
          | none => .ok st
        else if blockType = "runon-body" then
          .ok (extract_defblock pos_gram runon_title gwSense phrase block st.1 gws st.2)
        else .ok st

/-- Exception-aware variant of `extract_definitions`. -/
def extract_definitionsE (fuel : Nat) (sense_body : Loc) (pos_gram : String)
    (runon_title guideword : Option String) (gws : List String) (idx : Nat) :
    Except String (List String × Nat) :=
  (childLocs sense_body).foldlM
    (fun st block => extract_senseE pos_gram runon_title guideword gws fuel block none st)
    ([], idx)

/-- Exception-aware variant of `processSense`: the class read of line 414
(`sense.get("class", [""])[0]`) and the recursive definition extraction may
raise. -/
def processSenseE (fuel : Nat) (gws : List String)
    (spg : PState × String) (sense : Loc) : Except String (PState × String) :=
  match firstClassE sense.node with
  | .error e => .error e
  | .ok fc =>
    let pos_gram := spg.2
    let pgrt :=
      if fc = "runon" then
        let runon_pos := sense.node.findN (tagClass "span" "pos")
        let runon_gram := sense.node.findN (tagClass "span" "gram")
        let pg := match runon_pos with
          | some rp =>
            rp.getText ++ (match runon_gram with | some rg => rg.getText | none => "")
          | none => pos_gram
        let runon_header := sense.node.findN (tagClass "h3" "runon-title")
        (pg, runon_header.map NodeV.getText)
      else (pos_gram, (none : Option String))
    let sense_body := sense.find senseBodyRe
    let guideword_tags := sense.node.findAllN (tagClass "span" "guideword")
    let guideword : Option String :=
      if guideword_tags.length = 1 then
        guideword_tags.head?.map (fun t => normalize_text (t.getTextSepStrip " "))
      else none
    let st2E : Except String PState :=
      match sense_body with
      | some sb =>
        match extract_definitionsE fuel sb pgrt.1 pgrt.2 guideword gws spg.1.gwIdx with
        | .error e => .error e
        | .ok dfs =>
          .ok { spg.1 with definitions := spg.1.definitions ++ dfs.1, gwIdx := dfs.2 }
      | none => .ok spg.1
    match st2E with
    | .error e => .error e
    | .ok st2 =>
      let it := apply_lightbox sense.node st2.image st2.thumb
      .ok ({ st2 with image := it.1, thumb := it.2 }, pgrt.1)

/-- Exception-aware variant of `processEntry`. -/
def processEntryE (fuel : Nat) (gws : List String) (st : PState) (entry : Loc) :
    Except String PState :=
  let st2 :=
    if st.headerFound then st
    else
      match entry.find (tagClass "div" "pos-header") with
      | some h => { st with pron := processHeaderTags st.pron h.node, headerFound := true }
      | none => st
  let senses := entry.findAll (tagClass "div" "pos-body")
  let pos_gram := match entry.find (tagClass "div" "posgram") with
    | some pg => pg.node.getText
    | none => ""
  match senses.foldlM (processSenseE fuel gws) (st2, pos_gram) with
  | .error e => .error e
  | .ok spg => .ok spg.1

/-- Exception-aware embedding of `parse_cambridge`: identical to
`parse_cambridge` except that it propagates the `IndexError` the source
raises at `block.get("class", [""])[0]` when a present `class` attribute
parses to the empty list (BeautifulSoup ≥ 4.7.0 parses an empty or
whitespace-only attribute that way).  On documents whose elements all have
non-degenerate class attributes the two parsers agree
(`parse_cambridgeE_ok_of_wellClassed`). -/
def parse_cambridgeE (doc : Forest) (is_english : Bool) :
    Except String CambridgeResult :=
  let page_class := if is_english then "page" else "di-body"
  match soupFind doc (tagClass "div" page_class) with
  | none => .ok ⟨initPron, "", "", []⟩
  | some element =>
    let entries := element.findAll (tagClass "div" "entry-body__el")
    let guidewords :=
      (element.node.findAllN (tagClass "span" "guideword")).filterMap
        (fun t =>
          if t.getTextStrip ≠ "" then some (normalize_text (t.getTextSepStrip " "))
          else none)
    match entries.foldlM (processEntryE (doc.size + 1) guidewords) initPState with
    | .error e => .error e
    | .ok fin => .ok ⟨fin.pron, fin.image, fin.thumb, fin.definitions⟩


/-- Embedding of the module constant `DEFAULT_CSS` (verbatim, including the
leading and trailing newline of the triple-quoted literal). -/
def DEFAULT_CSS : String := "
body \x7b
  font-family: \"Segoe UI\", \"PingFang SC\", \"Hiragino Sans GB\", \"Microsoft YaHei\", sans-serif;
  margin: 32px;
  color: #0f172a;
  background: #f1f5f9;
\x7d
.card \x7b
  background: #ffffff;
  border-radius: 16px;
  box-shadow: 0 12px 32px rgba(15, 23, 42, 0.12);
  padding: 28px 32px;
  max-width: 980px;
  margin: 0 auto;
  border: 1px solid #e2e8f0;
\x7d
.header \x7b
  display: flex;
  flex-wrap: wrap;
  justify-content: space-between;
  align-items: baseline;
  gap: 12px;
\x7d
.word \x7b
  font-size: 36px;
  font-weight: 750;
  color: #0b1220;
  letter-spacing: 0.3px;
\x7d
.meta \x7b
  font-size: 13px;
  color: #64748b;
\x7d
.meta a \x7b
  color: #2563eb;
  text-decoration: none;
\x7d
.meta a:hover \x7b
  text-decoration: underline;
\x7d
.pron \x7b
  display: flex;
  flex-wrap: wrap;
  gap: 16px;
  margin-top: 12px;
  font-size: 15px;
\x7d
.pron span \x7b
  background: #e0f2fe;
  padding: 6px 12px;
  border-radius: 999px;
  color: #0f172a;
  border: 1px solid #bae6fd;
\x7d
.section \x7b
  margin-top: 24px;
\x7d
.section-title \x7b
  font-size: 18px;
  font-weight: 650;
  margin-bottom: 12px;
  color: #1e3a8a;
  display: inline-flex;
  align-items: center;
  gap: 8px;
\x7d
.definitions \x7b
  list-style: none;
  padding: 0;
  margin: 0;
  display: grid;
  gap: 12px;
\x7d
.definition \x7b
  background: #f8fafc;
  border-radius: 12px;
  padding: 14px 16px;
  line-height: 1.6;
  border: 1px solid #e2e8f0;
  display: grid;
  gap: 6px;
\x7d
.definition-header \x7b
  display: flex;
  flex-wrap: wrap;
  gap: 6px;
\x7d
.tag \x7b
  background: #ede9fe;
  color: #5b21b6;
  font-size: 12px;
  padding: 2px 8px;
  border-radius: 999px;
  border: 1px solid #ddd6fe;
\x7d
.definition-text \x7b
  font-size: 15px;
  color: #0f172a;
  white-space: pre-line;
\x7d
.definition-index \x7b
  font-weight: 700;
  color: #1d4ed8;
  font-size: 13px;
  margin-right: 6px;
\x7d
.media \x7b
  display: flex;
  gap: 16px;
  flex-wrap: wrap;
\x7d
.media img \x7b
  max-width: 240px;
  border-radius: 8px;
  border: 1px solid #e2e8f0;
  background: #fff;
\x7d
.grid \x7b
  display: grid;
  gap: 12px;
\x7d
.footer \x7b
  margin-top: 16px;
  font-size: 12px;
  color: #94a3b8;
\x7d
"

/-- The `data` dict as `render_html` receives it from `main`: the parse
result plus the `word` and `url` fields `main` attaches. -/
structure RenderData where
  pronunciation : List (String × String)
  image : String
  thumb : String
  definitions : List String
  word : String
  url : String

/-- Python `f"{index:02d}"` for the (always small, positive) definition
index. -/
def formatIndex02 (n : Nat) : String :=
  if n < 10 then "0" ++ toString n else toString n

/-- Character class of the `tag_match` regex in `format_definition`.  Note
that the source pattern is `r"^((?:\\[[^\\]]+\\]\\s*)+)(.*)$"` with doubled
backslashes inside a raw string, so each `\\` is an escaped literal
backslash and `[[^\\]]` is the class containing `[`, `^` and `\`. -/
def tagMatchCls (c : Char) : Bool := c = '[' || c = '^' || c = '\\'

/-- One iteration of the repeated group of the `tag_match` regex: a literal
backslash, one class character, one or more `]`, then the literal `\]`
followed by a literal backslash and any number of `s` (this is what
`\\]\\s*` denotes once the doubled backslashes are unescaped).  Returns the
remainder on success.  Greedy matching is deterministic here because every
backtracking alternative immediately fails on the following literal. -/
def parseTagIter : List Char → Option (List Char)
  | '\\' :: c :: rest =>
    if tagMatchCls c then
      if (rest.takeWhile (fun x => x = ']')).isEmpty then none
      else
        match rest.dropWhile (fun x => x = ']') with
        | '\\' :: ']' :: '\\' :: rest3 => some (rest3.dropWhile (fun x => x = 's'))
        | _ => none
    else none
  | _ => none

/-- The repeated group of the `tag_match` regex, applied greedily one or
more times.  The fuel (always supplied as the input length plus one) is
only a structural-recursion bound: each iteration consumes at least five
characters. -/
def parseTagIters : Nat → List Char → Option (List Char)
  | 0, _ => none
  | fuel + 1, l =>
    match parseTagIter l with
    | none => none
    | some r =>
      match parseTagIters fuel r with
      | some r2 => some r2
      | none => some r

/-- Matching of the trailing `(.*)$` of the `tag_match` regex against the
remainder: `.` does not cross a newline and `$` also matches just before a
final newline, so the remainder matches exactly when it contains no newline
other than a final one; the captured group excludes that final newline. -/
def reDotStarDollar (r : List Char) : Option (List Char) :=
  if r.contains '\n' then
    if r.getLast? = some '\n' && !(r.dropLast.contains '\n') then some r.dropLast
    else none
  else some r

/-- Embedding of `re.match(r"^((?:\\[[^\\]]+\\]\\s*)+)(.*)$", definition)` in
`format_definition`: returns the two captured groups on success.  Because
every tag block the scraper actually produces starts with `[`, not with a
literal backslash, this match fails on all reachable inputs — the doubled
backslashes in the source pattern are a bug faithfully reproduced here. -/
def tag_match (definition : String) : Option (String × String) :=
  let l := definition.data
  match parseTagIters (l.length + 1) l with
  | none => none
  | some r =>
    match reDotStarDollar r with
    | none => none
    | some g2 => some (⟨l.take (l.length - r.length)⟩, ⟨g2⟩)

/-- Embedding of the inner function `format_definition` of `render_html`,
exception-aware.  When `tag_match` succeeds, the source calls
`re.findall(r"\\[([^\\]]+)\\]", ...)`; that pattern is syntactically
invalid — its `(` falls inside the character class `[([^\]`, leaving the
later `)` unbalanced — so `re.findall` raises
`re.error("unbalanced parenthesis at position 11")` whenever it is reached.
When `tag_match` fails (every string not starting with a literal
backslash), `tags_html` stays `""` and the untagged list item is built. -/
def format_definitionE (index : Nat) (definition : String) :
    Except String String :=
  match tag_match definition with
  | some _ => .error "re.error: unbalanced parenthesis at position 11"
  | none =>
    let tags_html := ""
    let main_text := pyStrip definition
    let header_html :=
      if tags_html ≠ "" then
        "<div class=\"definition-header\"><span class=\"definition-index\">" ++
          formatIndex02 index ++ "</span>" ++ tags_html ++ "</div>"
      else
        "<div class=\"definition-header\"><span class=\"definition-index\">" ++
          formatIndex02 index ++ "</span></div>"
    .ok ("<li class=\"definition\">" ++ header_html ++ "<div class=\"definition-text\">" ++
      (if main_text ≠ "" then main_text else "No definition text.") ++ "</div></li>")

/-- The definition-list generator of `render_html`
(`format_definition(i + 1, definition) for i, definition in enumerate(defs)`):
items are produced left to right and the first exception propagates. -/
def renderDefsE : Nat → List String → Except String (List String)
  | _, [] => .ok []
  | i, d :: rest =>
    match format_definitionE (i + 1) d with
    | .error e => .error e
    | .ok s =>
      match renderDefsE (i + 1) rest with
      | .error e => .error e
      | .ok ss => .ok (s :: ss)

/-- The pure page assembly of `render_html` once the definition list string
is available: stylesheet handling, media block and the full HTML template,
grouped so that the media block is the middle of a three-part
concatenation. -/
def renderPage (data : RenderData) (css_path : Option String) (def_list : String) :
    String :=
  let pronunciations := data.pronunciation
  let image_url := data.image
  let thumb_url := data.thumb
  let word := data.word
  let url := data.url
  let css_tag :=
    match css_path with
    | some p =>
      if p ≠ "" then "<link rel=\"stylesheet\" href=\"" ++ p ++ "\">"
      else "<style>" ++ DEFAULT_CSS ++ "</style>"
    | none => "<style>" ++ DEFAULT_CSS ++ "</style>"
  let media_parts :=
    (if thumb_url ≠ "" then ["<img src=\"" ++ thumb_url ++ "\" alt=\"Thumbnail\">"] else []) ++
    (if image_url ≠ "" && image_url ≠ thumb_url then
      ["<img src=\"" ++ image_url ++ "\" alt=\"Image\">"] else [])
  let media_html :=
    if media_parts.isEmpty then "<div class=\"meta\">No images available.</div>"
    else pyJoin "\n" media_parts
  ("<!DOCTYPE html>\n<html lang=\"en\">\n<head>\n  <meta charset=\"UTF-8\">\n  <meta name=\"viewport\" content=\"width=device-width, initial-scale=1.0\">\n  <title>Cambridge: " ++
    word ++ "</title>\n  " ++ css_tag ++
    "\n</head>\n<body>\n  <div class=\"card\">\n    <div class=\"header\">\n      <div class=\"word\">" ++
    word ++ "</div>\n      <div class=\"meta\"><a href=\"" ++ url ++ "\">" ++ url ++
    "</a></div>\n    </div>\n    <div class=\"pron\">\n      <span>AmE: " ++
    dictGet pronunciations "AmE" "" ++ "</span>\n      <span>BrE: " ++
    dictGet pronunciations "BrE" "" ++
    "</span>\n    </div>\n    <div class=\"section\">\n      <div class=\"section-title\">\uF8FF\u00FC\u00EC\u00F2 Definitions</div>\n      <ul class=\"definitions\">\n        " ++
    def_list ++
    "\n      </ul>\n    </div>\n    <div class=\"section\">\n      <div class=\"section-title\">\uF8FF\u00FC\u00F1\u00BA\u00D4\u220F\u00E8 Images</div>\n      <div class=\"media\">\n        ") ++
  media_html ++
  ("\n      </div>\n    </div>\n    <div class=\"footer\">Generated by standalone_cambridge.py</div>\n  </div>\n</body>\n</html>\n")

/-- Exception-aware embedding of `render_html`: building the definition
list raises `re.error` as soon as one definition string matches the
tag-block pattern (because the `re.findall` pattern it then compiles is
invalid); otherwise the full document is assembled by `renderPage`. -/
def render_htmlE (data : RenderData) (css_path : Option String) :
    Except String String :=
  let defListE : Except String String :=
    if data.definitions.isEmpty then
      .ok "<li class=\"definition\"><div class=\"definition-text\">No definitions found.</div></li>"
    else
      match renderDefsE 0 data.definitions with
      | .error e => .error e
      | .ok parts => .ok (pyJoin "\n" parts)
  match defListE with
  | .error e => .error e
  | .ok def_list => .ok (renderPage data css_path def_list)

/-- Minimal document for the parser round-trip test: one entry, one
part-of-speech header, a `posgram` reading "verb", and one definition block
whose text is "to move quickly". -/
def docC2 : Forest := forestOf [tagN "div" [("class", "page")]
  [tagN "div" [("class", "entry-body__el")]
    [tagN "div" [("class", "pos-header")] [],
     tagN "div" [("class", "posgram")] [txtN "verb"],
     tagN "div" [("class", "pos-body")]
       [tagN "div" [("class", "sense-body")]
         [tagN "div" [("class", "def-block")]
           [tagN "div" [("class", "def")] [txtN "to move quickly"]]]]]]]

/-- Document probing guideword resolution: a guideword "ALPHA" outside any
entry, and a sense whose only guideword marker is "BETA"; the definition
block has no enclosing `dsense` group. -/
def docC3 : Forest := forestOf [tagN "div" [("class", "page")]
  [tagN "span" [("class", "guideword")] [txtN "ALPHA"],
   tagN "div" [("class", "entry-body__el")]
    [tagN "div" [("class", "pos-header")] [],
     tagN "div" [("class", "pos-body")]
       [tagN "span" [("class", "guideword")] [txtN "BETA"],
        tagN "div" [("class", "sense-body")]
         [tagN "div" [("class", "def-block")]
           [tagN "div" [("class", "def")] [txtN "x"]]]]]]]

/-- Document with a definition block nested beneath two phrase blocks: the
outer phrase block has the header "give up", the inner one has no header. -/
def docC4 : Forest := forestOf [tagN "div" [("class", "page")]
  [tagN "div" [("class", "entry-body__el")]
    [tagN "div" [("class", "pos-header")] [],
     tagN "div" [("class", "pos-body")]
       [tagN "div" [("class", "sense-body")]
         [tagN "div" [("class", "phrase-block")]
           [tagN "span" [("class", "phrase-head")] [txtN "give up"],
            tagN "div" [("class", "phrase-body pad-indent")]
              [tagN "div" [("class", "phrase-block")]
                [tagN "div" [("class", "phrase-body pad-indent")]
                  [tagN "div" [("class", "def-block")]
                    [tagN "div" [("class", "def")] [txtN "quit"]]]]]]]]]]]

/-- Document with no `div.page` (and no `div.di-body`) container. -/
def docC5 : Forest := forestOf [tagN "html" []
  [tagN "body" [] [tagN "div" [("class", "other")] [txtN "nothing here"]]]]

/-- Document whose first entry block has no `pos-header`; the second entry
block carries the pronunciation. -/
def docC7A : Forest := forestOf [tagN "div" [("class", "page")]
  [tagN "div" [("class", "entry-body__el")] [tagN "p" [] [txtN "hi"]],
   tagN "div" [("class", "entry-body__el")]
    [tagN "div" [("class", "pos-header")]
      [tagN "span" [("class", "dpron-i")]
        [tagN "span" [("class", "region")] [txtN "uk"],
         tagN "span" [("class", "pron")] [txtN "/test/"]]]]]]

/-- The document `docC7A` with every entry block after the first removed. -/
def docC7B : Forest := forestOf [tagN "div" [("class", "page")]
  [tagN "div" [("class", "entry-body__el")] [tagN "p" [] [txtN "hi"]]]]

/-- The first entry block of `docC7A` (it has no `pos-header`). -/
def docC7entry1 : NodeV := tagN "div" [("class", "entry-body__el")] [tagN "p" [] [txtN "hi"]]

/-- Document whose only sense holds a lightbox image with a `src` attribute
but no `data-image` attribute. -/
def docC8 : Forest := forestOf [tagN "div" [("class", "page")]
  [tagN "div" [("class", "entry-body__el")]
    [tagN "div" [("class", "pos-body")]
      [tagN "img" [("class", "lightboxLink"), ("src", "t.jpg")] []]]]]

/-- Document whose sense body contains an element with a present but empty
`class` attribute: BeautifulSoup (≥ 4.7.0) parses that attribute to `[]`,
so `block.get("class", [""])[0]` at line 281 raises `IndexError`. -/
def docC1bad : Forest := forestOf [tagN "div" [("class", "page")]
  [tagN "div" [("class", "entry-body__el")]
    [tagN "div" [("class", "pos-body")]
      [tagN "div" [("class", "sense-body")]
        [tagN "b" [("class", "")] [txtN "x"]]]]]]

/-- A lookup record with no images whose single definition string starts
with a literal backslash and matches the `tag_match` pattern, driving
`format_definition` into the invalid `re.findall` pattern. -/
def dataC9bad : RenderData :=
  ⟨initPron, "", "", ["\\[]\\]\\"], "test", "https://example.org/test"⟩

/-- A lookup record with no images and an ordinary definition string (not
matching the `tag_match` pattern), for the rendering witnesses. -/
def dataC9ok : RenderData :=
  ⟨initPron, "", "", ["[noun] a word"], "test", "https://example.org/test"⟩

/-- Document showing that a definition string matching the `tag_match`
pattern is producible by the parser itself: a `div.def` whose text is the
backslash string survives `normalize_text` unchanged and, with no tags,
becomes the whole output definition. -/
def docC9src : Forest := forestOf [tagN "div" [("class", "page")]
  [tagN "div" [("class", "entry-body__el")]
    [tagN "div" [("class", "pos-body")]
      [tagN "div" [("class", "sense-body")]
        [tagN "div" [("class", "def-block")]
          [tagN "div" [("class", "def")] [txtN "\\[]\\]\\"]]]]]]]

/-- Substring relation on strings (existence of a split). -/
def Substr (p s : String) : Prop := ∃ u v, s = u ++ p ++ v


/-- Specification-side pronunciation function for the amended C7 claim: the
pronunciation dict is produced from the first entry block that contains a
`div.pos-header`; entries before it contribute nothing and entries after it
are ignored. -/
def firstHeaderPron : List Loc → List (String × String) → List (String × String)
  | [], pron0 => pron0
  | e :: rest, pron0 =>
    match e.find (tagClass "div" "pos-header") with
    | some h => processHeaderTags pron0 h.node
    | none => firstHeaderPron rest pron0

/-- Key list of an association-list dict, in order. -/
def pronKeys (d : List (String × String)) : List String := d.map Prod.fst


theorem substr_refl (p : String) : Substr p p :=
  ⟨"", "", by rw [String.empty_append, String.append_empty]⟩

theorem substr_append_right {p s : String} (t : String) (h : Substr p s) :
    Substr p (s ++ t) := by
  obtain ⟨u, v, rfl⟩ := h
  exact ⟨u, v ++ t, by rw [String.append_assoc (u ++ p) v t]⟩

theorem substr_append_left {p s : String} (t : String) (h : Substr p s) :
    Substr p (t ++ s) := by
  obtain ⟨u, v, rfl⟩ := h
  exact ⟨t ++ u, v, by rw [← String.append_assoc, ← String.append_assoc]⟩

theorem substr_mem_pyJoin {x : String} (sep : String) :
    ∀ (l : List String), x ∈ l → Substr x (pyJoin sep l) := by
  intro l
  induction l with
  | nil => intro h; cases h
  | cons y ys ih =>
    intro h
    cases ys with
    | nil =>
      have hx : x = y := by
        rcases List.mem_cons.mp h with h1 | h1
        · exact h1
        · cases h1
      subst hx
      exact substr_refl x
    | cons z zs =>
      rcases List.mem_cons.mp h with h1 | h2
      · subst h1
        show Substr x (x ++ sep ++ pyJoin sep (z :: zs))
        exact substr_append_right _ (substr_append_right _ (substr_refl x))
      · show Substr x (y ++ sep ++ pyJoin sep (z :: zs))
        exact substr_append_left (y ++ sep) (ih h2)

theorem substr_ne_empty {p s : String} (h : Substr p s) (hp : p ≠ "") : s ≠ "" := by
  obtain ⟨u, v, rfl⟩ := h
  intro h0
  apply hp
  have hl : (u ++ p ++ v).length = 0 := by rw [h0]; rfl
  rw [String.length_append, String.length_append] at hl
  have hp0 : p.length = 0 := by omega
  cases p with
  | mk pdata =>
    cases pdata with
    | nil => rfl
    | cons c cs => simp [String.length] at hp0

/-- C2: on the minimal document with one entry, one part-of-speech header
("verb") and one definition block with text "to move quickly", the parser
emits exactly the string `"[verb] to move quickly"`, in which the bracketed
part-of-speech tag block precedes the definition text. -/
theorem parse_minimal_def_ordering :
    (parse_cambridge docC2 true).definitions = ["[verb] to move quickly"] ∧
    "[verb] to move quickly" = "[verb]" ++ " " ++ "to move quickly" := by
  constructor
  · decide
  · decide

/-- C5: when the expected top-level container (`div.page` for English,
`div.di-body` otherwise) is absent, `parse_cambridge` returns the record
with the four pronunciation strings empty, empty image and thumb, and no
definitions. -/
theorem parse_missing_container (doc : Forest) (is_english : Bool)
    (h : soupFind doc (tagClass "div" (if is_english then "page" else "di-body")) = none) :
    parse_cambridge doc is_english =
      ⟨[("AmE", ""), ("BrE", ""), ("AmEmp3", ""), ("BrEmp3", "")], "", "", []⟩ := by
  simp only [parse_cambridge]
  rw [h]
  rfl

theorem parse_missing_container_witness :
    parse_cambridge docC5 true =
      ⟨[("AmE", ""), ("BrE", ""), ("AmEmp3", ""), ("BrEmp3", "")], "", "", []⟩ :=
  parse_missing_container docC5 true (by decide)

/-- C6: `build_url` fails with the `ValueError` message for every language
key outside the fixed table (before any network access can happen — `main`
only calls `fetch_html` on the URL `build_url` returned), and for supported
keys returns the per-language base path concatenated with the word; in
particular for "test"/"en" it returns the English base path followed by
"test". -/
theorem build_url_spec :
    (∀ word lang, lang ∉ LANG_URLS.map Prod.fst →
      build_url word lang = .error ("Unsupported language key: " ++ lang)) ∧
    (∀ word, build_url word "en" =
      .ok ("https://dictionary.cambridge.org/dictionary/english/" ++ word)) ∧
    (∀ word, build_url word "en-zh-s" =
      .ok ("https://dictionary.cambridge.org/us/dictionary/english-chinese-simplified/" ++ word)) ∧
    (∀ word, build_url word "en-zh-t" =
      .ok ("https://dictionary.cambridge.org/us/dictionary/english-chinese-traditional/" ++ word)) ∧
    build_url "test" "en" = .ok "https://dictionary.cambridge.org/dictionary/english/test" := by
  refine ⟨?_, ?_, ?_, ?_, ?_⟩
  · intro word lang h
    simp only [LANG_URLS, List.map, List.mem_cons, List.not_mem_nil, or_false,
      not_or] at h
    obtain ⟨h1, h2, h3⟩ := h
    have e1 : (lang == "en") = false := beq_eq_false_iff_ne.mpr h1
    have e2 : (lang == "en-zh-s") = false := beq_eq_false_iff_ne.mpr h2
    have e3 : (lang == "en-zh-t") = false := beq_eq_false_iff_ne.mpr h3
    simp [build_url, LANG_URLS, List.lookup, e1, e2, e3]
  · intro word
    rfl
  · intro word
    rfl
  · intro word
    rfl
  · rfl

theorem build_url_spec_witness :
    build_url "test" "xx" = .error ("Unsupported language key: " ++ "xx") :=
  build_url_spec.1 "test" "xx" (by decide)


/-- C3 counterexample: in `docC3` the definition block has no enclosing
`dsense` group anywhere in the document, so resolution strategy (a) — the
claim as stated — would assign the first document-wide guideword "ALPHA";
the code instead uses the sense-level single guideword marker "BETA". -/
theorem guideword_strategy_counterexample :
    (parse_cambridge docC3 true).definitions = ["[BETA] x"] ∧
    ((soupFind docC3 (tagClass "div" "page")).map (fun el =>
      (el.node.findAllN (tagClass "span" "guideword")).filterMap
        (fun t =>
          if t.getTextStrip ≠ "" then some (normalize_text (t.getTextSepStrip " "))
          else none))) = some ["ALPHA", "BETA"] ∧
    (descLocs docC3 []).all (fun l => !(dsenseFn l.node)) = true ∧
    next_guideword ["ALPHA", "BETA"] 0 = (some "ALPHA", 1) ∧
    ("[BETA] x" : String) ≠ "[ALPHA] x" := by
  refine ⟨by decide, by decide, by decide, by decide, by decide⟩

/-- C3 (amended): guideword resolution precedence as the code implements
it — the nearest enclosing `dsense` group's non-empty guideword wins; when
no such override exists, the sense-level guideword (present only when the
sense has exactly one guideword marker) is used if non-empty; only when the
outcome so far is falsy is the next guideword of the document-wide
sequential assignment consumed. -/
theorem guideword_resolution_precedence (block : Loc) (gwSense : Option String)
    (gws : List String) (idx : Nat) :
    (∀ g, dsenseGuideword block = some g → g ≠ "" →
      guideword_for_block block gwSense gws idx = (some g, idx)) ∧
    (∀ g, dsenseGuideword block = none → gwSense = some g → g ≠ "" →
      guideword_for_block block gwSense gws idx = (some g, idx)) ∧
    (dsenseGuideword block = none → optTruthy gwSense = false →
      guideword_for_block block gwSense gws idx = next_guideword gws idx) ∧
    (dsenseGuideword block = some "" →
      guideword_for_block block gwSense gws idx = next_guideword gws idx) := by
  refine ⟨?_, ?_, ?_, ?_⟩
  · intro g h hne
    simp [guideword_for_block, h, optTruthy, hne]
  · intro g h hs hne
    simp [guideword_for_block, h, hs, optTruthy, hne]
  · intro h ht
    simp [guideword_for_block, h, ht]
  · intro h
    simp [guideword_for_block, h, optTruthy]

theorem guideword_resolution_precedence_witness :
    guideword_for_block ⟨tagN "div" [("class", "def-block")] [], []⟩
      (some "BETA") ["ALPHA"] 0 = (some "BETA", 0) :=
  (guideword_resolution_precedence ⟨tagN "div" [("class", "def-block")] [], []⟩
    (some "BETA") ["ALPHA"] 0).2.1 "BETA" (by decide) rfl (by decide)

/-- C4 counterexample: in `docC4` the definition block sits beneath a
phrase block whose header is "give up" (via an inner, headerless phrase
block); its output string "quit" does not carry the "[give up]" tag. -/
theorem phrase_header_counterexample :
    (parse_cambridge docC4 true).definitions = ["quit"] ∧
    (soupFind docC4 (tagClass "span" "phrase-head")).map (fun l => l.node.getText) =
      some "give up" ∧
    (soupFind docC4 (tagClass "div" "def-block")).isSome = true ∧
    containsSub "quit" "[give up]" = false := by
  refine ⟨by decide, by decide, by decide, by decide⟩

/-- C7 counterexample: in `docC7A` the first entry block has no
`pos-header`, yet the parsed pronunciation carries "/test/" (taken from the
second entry); deleting the entries after the first (`docC7B`) changes the
pronunciation, so it is not derived solely from the first entry block. -/
theorem pron_first_entry_counterexample :
    docC7entry1.findN (tagClass "div" "pos-header") = none ∧
    dictGet (parse_cambridge docC7A true).pronunciation "BrE" "" = "/test/" ∧
    (parse_cambridge docC7A true).pronunciation ≠
      (parse_cambridge docC7B true).pronunciation := by
  refine ⟨by decide, by decide, by decide⟩

/-- C8 counterexample: `docC8`'s sense holds a lightbox image with only a
`src` attribute; the thumbnail is recorded but the detail-image field stays
empty — it is not recorded as the base concatenated with any attribute
(the base does not even occur in it), and nothing is overwritten. -/
theorem lightbox_counterexample :
    (soupFind docC8 imgLightbox).isSome = true ∧
    (parse_cambridge docC8 true).thumb = CAMBRIDGE_BASE ++ "t.jpg" ∧
    (parse_cambridge docC8 true).image = "" ∧
    containsSub (parse_cambridge docC8 true).image CAMBRIDGE_BASE = false := by
  refine ⟨by decide, by decide, by decide, by decide⟩

/-- C8 (amended): for the first lightbox image of a sense, each of the two
URL variants is overwritten with `CAMBRIDGE_BASE` plus its corresponding
attribute exactly when that attribute is present and non-empty; a missing
or empty attribute leaves that variant untouched, and a sense without a
lightbox image changes nothing. -/
theorem lightbox_attr_overwrites (sense : NodeV) (image thumb : String) :
    (∀ img di, sense.findN imgLightbox = some img →
      img.attr? "data-image" = some di → di ≠ "" →
      (apply_lightbox sense image thumb).1 = CAMBRIDGE_BASE ++ di) ∧
    (∀ img, sense.findN imgLightbox = some img → img.attr? "data-image" = none →
      (apply_lightbox sense image thumb).1 = image) ∧
    (∀ img, sense.findN imgLightbox = some img → img.attr? "data-image" = some "" →
      (apply_lightbox sense image thumb).1 = image) ∧
    (∀ img s, sense.findN imgLightbox = some img →
      img.attr? "src" = some s → s ≠ "" →
      (apply_lightbox sense image thumb).2 = CAMBRIDGE_BASE ++ s) ∧
    (∀ img, sense.findN imgLightbox = some img → img.attr? "src" = none →
      (apply_lightbox sense image thumb).2 = thumb) ∧
    (∀ img, sense.findN imgLightbox = some img → img.attr? "src" = some "" →
      (apply_lightbox sense image thumb).2 = thumb) ∧
    (sense.findN imgLightbox = none →
      apply_lightbox sense image thumb = (image, thumb)) := by
  refine ⟨?_, ?_, ?_, ?_, ?_, ?_, ?_⟩
  · intro img di h hd hne
    simp [apply_lightbox, h, hd, hne]
  · intro img h hd
    simp [apply_lightbox, h, hd]
  · intro img h hd
    simp [apply_lightbox, h, hd]
  · intro img s h hs hne
    simp [apply_lightbox, h, hs, hne]
  · intro img h hs
    simp [apply_lightbox, h, hs]
  · intro img h hs
    simp [apply_lightbox, h, hs]
  · intro h
    simp [apply_lightbox, h]

theorem lightbox_attr_overwrites_witness :
    (apply_lightbox (tagN "div" [("class", "pos-body")]
      [tagN "img" [("class", "lightboxLink"), ("src", "t.jpg")] []]) "" "").2 =
      CAMBRIDGE_BASE ++ "t.jpg" :=
  (lightbox_attr_overwrites (tagN "div" [("class", "pos-body")]
      [tagN "img" [("class", "lightboxLink"), ("src", "t.jpg")] []]) "" "").2.2.2.1
    (tagN "img" [("class", "lightboxLink"), ("src", "t.jpg")] []) "t.jpg"
    (by decide) (by decide) (by decide)


theorem substr_full_text {x : String} (tag_text definition_text : String)
    (h : Substr x tag_text) (hx : x ≠ "") :
    Substr x (pyJoin " " ([tag_text, definition_text].filter (fun s => s ≠ ""))) := by
  have htag : tag_text ≠ "" := substr_ne_empty h hx
  by_cases hd : definition_text = ""
  · subst hd
    have hf : ([tag_text, ""].filter (fun s => s ≠ "")) = [tag_text] := by simp [htag]
    rw [hf]
    exact h
  · have hf : ([tag_text, definition_text].filter (fun s => s ≠ "")) =
        [tag_text, definition_text] := by simp [htag, hd]
    rw [hf]
    show Substr x (tag_text ++ " " ++ definition_text)
    exact substr_append_right _ (substr_append_right _ h)

theorem bracket_ne_empty (p : String) : ("[" ++ p ++ "]" : String) ≠ "" := by
  intro h0
  have hl := congrArg String.length h0
  rw [String.length_append, String.length_append] at hl
  have h1 : ("[" : String).length = 1 := rfl
  have h2 : ("]" : String).length = 1 := rfl
  have h3 : ("" : String).length = 0 := rfl
  rw [h1, h2, h3] at hl
  omega

/-- C4 (amended): a definition block processed with a non-empty phrase
header `p` — the header of the *nearest* enclosing phrase block, since a
nested phrase block replaces the outer header rather than inheriting it —
emits exactly one string, and that string carries "[p]" among its
bracketed tags. -/
theorem phrase_tag_attached (pos_gram : String) (runon_title gwSense : Option String)
    (block : Loc) (items : List String) (gws : List String) (idx : Nat)
    (p : String) (hp : p ≠ "") :
    ∃ s idx2,
      extract_defblock pos_gram runon_title gwSense (some p) block items gws idx =
        (items ++ [s], idx2) ∧
      Substr ("[" ++ p ++ "]") s := by
  refine ⟨_, _, rfl, ?_⟩
  refine substr_full_text _ _ ?_ (bracket_ne_empty p)
  refine substr_mem_pyJoin " " _ ?_
  refine List.mem_filterMap.mpr ⟨some p, ?_, ?_⟩
  · exact List.mem_append_left _
      (List.mem_cons_of_mem _ (List.mem_cons_of_mem _ (List.mem_cons_self _ _)))
  · simp [hp]

theorem phrase_tag_attached_witness :
    ∃ s idx2,
      extract_defblock "" none none (some "give up")
        ⟨tagN "div" [("class", "def-block")]
          [tagN "div" [("class", "def")] [txtN "quit"]], []⟩ [] [] 0 =
        ([s], idx2) ∧
      Substr ("[" ++ "give up" ++ "]") s := by
  have h := phrase_tag_attached "" none none
    ⟨tagN "div" [("class", "def-block")]
      [tagN "div" [("class", "def")] [txtN "quit"]], []⟩ [] [] 0 "give up" (by decide)
  obtain ⟨s, i2, he, hsub⟩ := h
  exact ⟨s, i2, by rw [he, List.nil_append], hsub⟩

theorem processEntry_eq_true (fuel : Nat) (gws : List String)
    (p0 : List (String × String)) (i0 t0 : String) (d0 : List String) (g0 : Nat)
    (e : Loc) :
    processEntry fuel gws ⟨p0, i0, t0, d0, g0, true⟩ e =
      ((Loc.findAll e (tagClass "div" "pos-body")).foldl (processSense fuel gws)
        (⟨p0, i0, t0, d0, g0, true⟩,
         (match Loc.find e (tagClass "div" "posgram") with
          | some pg => pg.node.getText
          | none => ""))).1 := rfl

theorem processEntry_eq_false (fuel : Nat) (gws : List String)
    (p0 : List (String × String)) (i0 t0 : String) (d0 : List String) (g0 : Nat)
    (e : Loc) :
    processEntry fuel gws ⟨p0, i0, t0, d0, g0, false⟩ e =
      ((Loc.findAll e (tagClass "div" "pos-body")).foldl (processSense fuel gws)
        ((match Loc.find e (tagClass "div" "pos-header") with
          | some h => ⟨processHeaderTags p0 h.node, i0, t0, d0, g0, true⟩
          | none => ⟨p0, i0, t0, d0, g0, false⟩),
         (match Loc.find e (tagClass "div" "posgram") with
          | some pg => pg.node.getText
          | none => ""))).1 := rfl

theorem processSense_preserves (fuel : Nat) (gws : List String)
    (spg : PState × String) (sense : Loc) :
    ((processSense fuel gws spg sense).1).pron = spg.1.pron ∧
    ((processSense fuel gws spg sense).1).headerFound = spg.1.headerFound := by
  unfold processSense
  dsimp only
  constructor <;> (split <;> rfl)

theorem foldl_processSense_preserves (fuel : Nat) (gws : List String) :
    ∀ (senses : List Loc) (spg : PState × String),
      ((senses.foldl (processSense fuel gws) spg).1).pron = spg.1.pron ∧
      ((senses.foldl (processSense fuel gws) spg).1).headerFound =
        spg.1.headerFound := by
  intro senses
  induction senses with
  | nil => intro spg; exact ⟨rfl, rfl⟩
  | cons s rest ih =>
    intro spg
    have h1 := processSense_preserves fuel gws spg s
    have h2 := ih (processSense fuel gws spg s)
    exact ⟨h2.1.trans h1.1, h2.2.trans h1.2⟩

theorem processEntry_found (fuel : Nat) (gws : List String) (st : PState) (e : Loc)
    (h : st.headerFound = true) :
    (processEntry fuel gws st e).pron = st.pron ∧
    (processEntry fuel gws st e).headerFound = true := by
  obtain ⟨p0, i0, t0, d0, g0, hf⟩ := st
  cases hf with
  | false => simp at h
  | true =>
    rw [processEntry_eq_true]
    have hfold := foldl_processSense_preserves fuel gws
      (Loc.findAll e (tagClass "div" "pos-body"))
      (⟨p0, i0, t0, d0, g0, true⟩,
        (match Loc.find e (tagClass "div" "posgram") with
         | some pg => pg.node.getText
         | none => ""))
    exact ⟨hfold.1, hfold.2⟩

theorem foldl_processEntry_found (fuel : Nat) (gws : List String) :
    ∀ (entries : List Loc) (st : PState), st.headerFound = true →
      ((entries.foldl (processEntry fuel gws) st)).pron = st.pron := by
  intro entries
  induction entries with
  | nil => intro st _; rfl
  | cons e rest ih =>
    intro st h
    have h1 := processEntry_found fuel gws st e h
    have h2 := ih (processEntry fuel gws st e) h1.2
    exact h2.trans h1.1

theorem foldl_processEntry_pron (fuel : Nat) (gws : List String) :
    ∀ (entries : List Loc) (st : PState), st.headerFound = false →
      ((entries.foldl (processEntry fuel gws) st)).pron =
        firstHeaderPron entries st.pron := by
  intro entries
  induction entries with
  | nil => intro st _; rfl
  | cons e rest ih =>
    intro st h
    obtain ⟨p0, i0, t0, d0, g0, hf⟩ := st
    cases hf with
    | true => simp at h
    | false =>
      cases hh : Loc.find e (tagClass "div" "pos-header") with
      | some hd =>
        have hstep : (processEntry fuel gws ⟨p0, i0, t0, d0, g0, false⟩ e).pron =
            processHeaderTags p0 hd.node ∧
            (processEntry fuel gws ⟨p0, i0, t0, d0, g0, false⟩ e).headerFound = true := by
          rw [processEntry_eq_false, hh]
          have hfold := foldl_processSense_preserves fuel gws
            (Loc.findAll e (tagClass "div" "pos-body"))
            (⟨processHeaderTags p0 hd.node, i0, t0, d0, g0, true⟩,
              (match Loc.find e (tagClass "div" "posgram") with
               | some pg => pg.node.getText
               | none => ""))
          exact ⟨hfold.1, hfold.2⟩
        have hrest := foldl_processEntry_found fuel gws rest
          (processEntry fuel gws ⟨p0, i0, t0, d0, g0, false⟩ e) hstep.2
        show (rest.foldl (processEntry fuel gws)
          (processEntry fuel gws ⟨p0, i0, t0, d0, g0, false⟩ e)).pron =
          firstHeaderPron (e :: rest) p0
        rw [hrest, hstep.1]
        show processHeaderTags p0 hd.node =
          (match Loc.find e (tagClass "div" "pos-header") with
           | some h => processHeaderTags p0 h.node
           | none => firstHeaderPron rest p0)
        rw [hh]
      | none =>
        have hstep : (processEntry fuel gws ⟨p0, i0, t0, d0, g0, false⟩ e).pron = p0 ∧
            (processEntry fuel gws ⟨p0, i0, t0, d0, g0, false⟩ e).headerFound = false := by
          rw [processEntry_eq_false, hh]
          have hfold := foldl_processSense_preserves fuel gws
            (Loc.findAll e (tagClass "div" "pos-body"))
            (⟨p0, i0, t0, d0, g0, false⟩,
              (match Loc.find e (tagClass "div" "posgram") with
               | some pg => pg.node.getText
               | none => ""))
          exact ⟨hfold.1, hfold.2⟩
        have hrest := ih (processEntry fuel gws ⟨p0, i0, t0, d0, g0, false⟩ e) hstep.2
        show (rest.foldl (processEntry fuel gws)
          (processEntry fuel gws ⟨p0, i0, t0, d0, g0, false⟩ e)).pron =
          firstHeaderPron (e :: rest) p0
        rw [hrest, hstep.1]
        show firstHeaderPron rest p0 =
          (match Loc.find e (tagClass "div" "pos-header") with
           | some h => processHeaderTags p0 h.node
           | none => firstHeaderPron rest p0)
        rw [hh]

/-- C7 (amended): the pronunciation mapping of a parsed page is computed
from the first entry block that *contains a `pos-header`* (which need not
be the first entry block), applied to the initial empty mapping; all other
entry blocks — before or after it — leave the pronunciation unchanged. -/
theorem pron_from_first_header_entry (doc : Forest) (is_english : Bool) :
    (parse_cambridge doc is_english).pronunciation =
      (match soupFind doc (tagClass "div" (if is_english then "page" else "di-body")) with
       | none => initPron
       | some element =>
         firstHeaderPron (element.findAll (tagClass "div" "entry-body__el")) initPron) := by
  simp only [parse_cambridge]
  cases hel : soupFind doc (tagClass "div" (if is_english then "page" else "di-body")) with
  | none => rfl
  | some element =>
    dsimp only
    exact foldl_processEntry_pron (doc.size + 1) _ _ initPState rfl

theorem pronKeys_dictSet (d : List (String × String)) (k v : String)
    (h : k ∈ pronKeys d) : pronKeys (dictSet d k v) = pronKeys d := by
  have ha : d.any (fun p => p.1 = k) = true := by
    simp only [pronKeys, List.mem_map] at h
    obtain ⟨p, hp, hk⟩ := h
    simp only [List.any_eq_true, decide_eq_true_eq]
    exact ⟨p, hp, hk⟩
  simp only [dictSet, ha, if_true]
  simp only [pronKeys, List.map_map]
  apply List.map_congr_left
  intro p _
  by_cases hpk : p.1 = k
  · simp [hpk]
  · simp [hpk]

theorem pronKeys_headerTagStep (pron : List (String × String)) (t : NodeV)
    (h : pronKeys pron = pronKeys initPron) :
    pronKeys (headerTagStep pron t) = pronKeys initPron := by
  unfold headerTagStep
  dsimp only
  have hkey : (if regionText t = "us" then "AmE" else "BrE") ∈ pronKeys pron := by
    rw [h]; split <;> decide
  have h1 : pronKeys (dictSet pron (if regionText t = "us" then "AmE" else "BrE")
      (pronText t)) = pronKeys initPron := by
    rw [pronKeys_dictSet _ _ _ hkey, h]
  have hkey2 : ((if regionText t = "us" then "AmE" else "BrE") ++ "mp3") ∈
      pronKeys (dictSet pron (if regionText t = "us" then "AmE" else "BrE")
        (pronText t)) := by
    rw [h1]; split <;> decide
  split
  · split
    · split
      · rw [pronKeys_dictSet _ _ _ hkey2, h1]
      · exact h1
    · exact h1
  · exact h1

theorem pronKeys_processHeaderTags (pron0 : List (String × String)) (header : NodeV)
    (h : pronKeys pron0 = pronKeys initPron) :
    pronKeys (processHeaderTags pron0 header) = pronKeys initPron := by
  unfold processHeaderTags
  generalize header.findAllN (tagClass "span" "dpron-i") = tags
  induction tags generalizing pron0 with
  | nil => exact h
  | cons t rest ih =>
    exact ih (headerTagStep pron0 t) (pronKeys_headerTagStep pron0 t h)

theorem pronKeys_processEntry (fuel : Nat) (gws : List String) (st : PState) (e : Loc)
    (h : pronKeys st.pron = pronKeys initPron) :
    pronKeys (processEntry fuel gws st e).pron = pronKeys initPron := by
  obtain ⟨p0, i0, t0, d0, g0, hf⟩ := st
  cases hf with
  | true =>
    rw [processEntry_eq_true]
    rw [(foldl_processSense_preserves fuel gws _ _).1]
    exact h
  | false =>
    rw [processEntry_eq_false]
    rw [(foldl_processSense_preserves fuel gws _ _).1]
    cases hh : Loc.find e (tagClass "div" "pos-header") with
    | some hd => exact pronKeys_processHeaderTags p0 hd.node h
    | none => exact h

theorem pronKeys_foldl_entries (fuel : Nat) (gws : List String) :
    ∀ (entries : List Loc) (st : PState), pronKeys st.pron = pronKeys initPron →
      pronKeys ((entries.foldl (processEntry fuel gws) st)).pron =
        pronKeys initPron := by
  intro entries
  induction entries with
  | nil => intro st h; exact h
  | cons e rest ih =>
    intro st h
    exact ih (processEntry fuel gws st e) (pronKeys_processEntry fuel gws st e h)

/-- C10: for every input and language flag, the pronunciation mapping of
the parsed record has exactly the four keys "AmE", "BrE", "AmEmp3" and
"BrEmp3", in insertion order: parsing only ever assigns to these keys of
the initial mapping and never adds or removes one. -/
theorem pron_keys_exactly_four (doc : Forest) (is_english : Bool) :
    pronKeys (parse_cambridge doc is_english).pronunciation =
      ["AmE", "BrE", "AmEmp3", "BrEmp3"] := by
  simp only [parse_cambridge]
  cases hel : soupFind doc (tagClass "div" (if is_english then "page" else "di-body")) with
  | none => rfl
  | some element =>
    dsimp only
    exact pronKeys_foldl_entries (doc.size + 1) _ _ initPState rfl


theorem firstClassE_eq (n : NodeV) (h : classOK n = true) :
    firstClassE n = .ok (firstClass n) := by
  unfold classOK at h
  unfold firstClassE firstClass NodeV.classesOpt
  cases ha : n.attr? "class" with
  | none => rfl
  | some v =>
    rw [ha] at h
    dsimp only at h ⊢
    cases hs : splitClassNames v with
    | nil => rw [hs] at h; simp at h
    | cons c cs =>
      simp only [Option.map]
      rw [hs]
      rfl

theorem wellClassed_mem : ∀ (f : Forest) (anc : List NodeV) (l : Loc),
    f.wellClassed = true → l ∈ descLocs f anc →
    classOK l.node = true ∧ Forest.wellClassed l.node.childrenF = true := by
  intro f
  induction f with
  | nil => intro anc l _ hm; cases hm
  | text s r ih =>
    intro anc l hw hm
    simp only [descLocs] at hm
    rcases List.mem_cons.mp hm with rfl | hm2
    · exact ⟨rfl, rfl⟩
    · exact ih anc l hw hm2
  | elem nm a ch r ihch ihr =>
    intro anc l hw hm
    simp only [Forest.wellClassed, Bool.and_eq_true] at hw
    simp only [descLocs] at hm
    rcases List.mem_cons.mp hm with rfl | hm2
    · exact ⟨hw.1.1, hw.1.2⟩
    · rcases List.mem_append.mp hm2 with hmc | hmr
      · exact ihch _ l hw.1.2 hmc
      · exact ihr anc l hw.2 hmr

theorem toNodes_loc_mem : ∀ (f : Forest) (anc : List NodeV) (n : NodeV),
    n ∈ f.toNodes → Loc.mk n anc ∈ descLocs f anc := by
  intro f
  induction f with
  | nil => intro anc n h; cases h
  | text s r ih =>
    intro anc n h
    simp only [Forest.toNodes] at h
    rcases List.mem_cons.mp h with rfl | h2
    · simp [descLocs]
    · simp only [descLocs]
      exact List.mem_cons_of_mem _ (ih anc n h2)
  | elem nm a ch r ihch ihr =>
    intro anc n h
    simp only [Forest.toNodes] at h
    rcases List.mem_cons.mp h with rfl | h2
    · simp [descLocs]
    · simp only [descLocs]
      exact List.mem_cons_of_mem _ (List.mem_append_right _ (ihr anc n h2))

theorem childLocs_mem {l2 l : Loc} (h : l2 ∈ childLocs l) :
    l2 ∈ descLocs l.node.childrenF (l.node :: l.ancestors) := by
  simp only [childLocs, List.mem_map] at h
  obtain ⟨n, hn, rfl⟩ := h
  exact toNodes_loc_mem _ _ _ hn

theorem hd_mem {α : Type} {l : List α} {a : α} (h : l.head? = some a) : a ∈ l := by
  cases l with
  | nil => cases h
  | cons x xs =>
    simp only [List.head?] at h
    injection h with h2
    rw [← h2]
    exact List.mem_cons_self x xs

theorem find_mem_descendants {l : Loc} {p : NodeV → Bool} {l2 : Loc}
    (h : Loc.find l p = some l2) : l2 ∈ Loc.descendants l := by
  unfold Loc.find Loc.findAll at h
  exact List.mem_of_mem_filter (hd_mem h)

theorem soupFind_mem {doc : Forest} {p : NodeV → Bool} {l : Loc}
    (h : soupFind doc p = some l) : l ∈ descLocs doc [] := by
  unfold soupFind at h
  exact List.mem_of_mem_filter (hd_mem h)

theorem foldlM_eq_foldl {α β : Type} (f : β → α → Except String β) (g : β → α → β)
    (l : List α) (h : ∀ a ∈ l, ∀ b, f b a = .ok (g b a)) :
    ∀ b, l.foldlM f b = .ok (l.foldl g b) := by
  induction l with
  | nil => intro b; rfl
  | cons x xs ih =>
    intro b
    show (f b x >>= fun b2 => xs.foldlM f b2) = .ok ((x :: xs).foldl g b)
    rw [h x (List.mem_cons_self x xs) b]
    show xs.foldlM f (g b x) = .ok (xs.foldl g (g b x))
    exact ih (fun a ha b2 => h a (List.mem_cons_of_mem x ha) b2) (g b x)

theorem extract_senseE_eq (pg : String) (rt gw : Option String) (gws : List String) :
    ∀ (fuel : Nat) (block : Loc) (phrase : Option String) (st : List String × Nat),
      classOK block.node = true → Forest.wellClassed block.node.childrenF = true →
      extract_senseE pg rt gw gws fuel block phrase st =
        .ok (extract_sense pg rt gw gws fuel block phrase st) := by
  intro fuel
  induction fuel with
  | zero => intro block phrase st _ _; rfl
  | succ fuel ih =>
    intro block phrase st hok hwc
    obtain ⟨bnode, banc⟩ := block
    cases bnode with
    | text s => rfl
    | elem nm a ch =>
      have hfc := firstClassE_eq (NodeV.elem nm a ch) hok
      simp only [extract_senseE, extract_sense]
      rw [hfc]
      dsimp only
      by_cases h1 : firstClass (NodeV.elem nm a ch) = "def-block"
      · simp [h1]
      · by_cases h2 : firstClass (NodeV.elem nm a ch) = "phrase-block"
        · simp only [h1, h2, if_false, if_true, reduceIte]
          cases hpb : Loc.find ⟨NodeV.elem nm a ch, banc⟩
              (tagClass "div" "phrase-body pad-indent") with
          | none => simp [hpb]
          | some pb =>
            simp only [hpb]
            have hpbm := find_mem_descendants hpb
            have hpbOK := wellClassed_mem ch (NodeV.elem nm a ch :: banc) pb hwc hpbm
            apply foldlM_eq_foldl
            intro c hc st2
            have hcm := childLocs_mem hc
            have hcOK := wellClassed_mem pb.node.childrenF _ c hpbOK.2 hcm
            exact ih c _ st2 hcOK.1 hcOK.2
        · by_cases h3 : firstClass (NodeV.elem nm a ch) = "runon-body"
          · simp [h1, h2, h3]
          · simp [h1, h2, h3]

theorem extract_definitionsE_eq (fuel : Nat) (sb : Loc) (pg : String)
    (rt gw : Option String) (gws : List String) (idx : Nat)
    (h : Forest.wellClassed sb.node.childrenF = true) :
    extract_definitionsE fuel sb pg rt gw gws idx =
      .ok (extract_definitions fuel sb pg rt gw gws idx) := by
  unfold extract_definitionsE extract_definitions
  apply foldlM_eq_foldl
  intro c hc st
  have hcm := childLocs_mem hc
  have hcOK := wellClassed_mem sb.node.childrenF _ c h hcm
  exact extract_senseE_eq pg rt gw gws fuel c none st hcOK.1 hcOK.2

theorem processSenseE_eq (fuel : Nat) (gws : List String)
    (spg : PState × String) (sense : Loc)
    (hok : classOK sense.node = true)
    (hwc : Forest.wellClassed sense.node.childrenF = true) :
    processSenseE fuel gws spg sense = .ok (processSense fuel gws spg sense) := by
  have hfc := firstClassE_eq sense.node hok
  unfold processSenseE processSense
  rw [hfc]
  dsimp only
  cases hsb : sense.find senseBodyRe with
  | none => simp [hsb]
  | some sb =>
    simp only [hsb]
    have hsbm := find_mem_descendants hsb
    have hsbOK := wellClassed_mem sense.node.childrenF _ sb hwc hsbm
    rw [extract_definitionsE_eq _ _ _ _ _ _ _ hsbOK.2]

theorem processEntryE_eq (fuel : Nat) (gws : List String) (st : PState) (entry : Loc)
    (hwc : Forest.wellClassed entry.node.childrenF = true) :
    processEntryE fuel gws st entry = .ok (processEntry fuel gws st entry) := by
  have hstep : ∀ sense ∈ Loc.findAll entry (tagClass "div" "pos-body"), ∀ spg,
      processSenseE fuel gws spg sense = .ok (processSense fuel gws spg sense) := by
    intro sense hs spg
    have hm : sense ∈ Loc.descendants entry := List.mem_of_mem_filter hs
    have hOK := wellClassed_mem entry.node.childrenF _ sense hwc hm
    exact processSenseE_eq fuel gws spg sense hOK.1 hOK.2
  unfold processEntryE processEntry
  dsimp only
  rw [foldlM_eq_foldl _ _ _ hstep]

/-- Agreement of the exception-aware and the no-exception parser: on every
document in which no element carries a present but empty/whitespace-only
`class` attribute, `parse_cambridgeE` raises nothing and returns exactly
the record `parse_cambridge` computes.  (All the concrete documents of this
development are of this kind.) -/
theorem parse_cambridgeE_ok_of_wellClassed (doc : Forest) (is_english : Bool)
    (h : doc.wellClassed = true) :
    parse_cambridgeE doc is_english = .ok (parse_cambridge doc is_english) := by
  unfold parse_cambridgeE parse_cambridge
  dsimp only
  cases hel : soupFind doc (tagClass "div" (if is_english then "page" else "di-body")) with
  | none => rfl
  | some element =>
    dsimp only
    have helm := soupFind_mem hel
    have helOK := wellClassed_mem doc [] element h helm
    have hstep : ∀ gws2 : List String,
        ∀ e ∈ Loc.findAll element (tagClass "div" "entry-body__el"), ∀ st,
        processEntryE (doc.size + 1) gws2 st e =
          .ok (processEntry (doc.size + 1) gws2 st e) := by
      intro gws2 e he st
      have hm : e ∈ Loc.descendants element := List.mem_of_mem_filter he
      have hOK := wellClassed_mem element.node.childrenF _ e helOK.2 hm
      exact processEntryE_eq _ _ st e hOK.2
    rw [foldlM_eq_foldl _ _ _ (hstep _)]

theorem renderDefsE_ok : ∀ (l : List String) (i : Nat),
    (∀ d ∈ l, tag_match d = none) → ∃ parts, renderDefsE i l = .ok parts := by
  intro l
  induction l with
  | nil => intro i _; exact ⟨[], rfl⟩
  | cons d rest ih =>
    intro i h
    have hd0 := h d (List.mem_cons_self d rest)
    obtain ⟨parts, hp⟩ := ih (i + 1) (fun x hx => h x (List.mem_cons_of_mem d hx))
    cases hfd : format_definitionE (i + 1) d with
    | error e => simp [format_definitionE, hd0] at hfd
    | ok s => exact ⟨s :: parts, by simp only [renderDefsE, hfd, hp]⟩

theorem renderPage_contains_marker (data : RenderData) (css_path : Option String)
    (def_list : String) (h1 : data.image = "") (h2 : data.thumb = "") :
    Substr "No images available." (renderPage data css_path def_list) := by
  have hm : Substr "No images available."
      ("<div class=\"meta\">No images available.</div>" : String) :=
    ⟨"<div class=\"meta\">", "</div>", by decide⟩
  unfold renderPage
  rw [h1, h2]
  simp only [ne_eq, not_true_eq_false, if_false, reduceIte, List.nil_append,
    List.isEmpty_nil, if_true]
  exact substr_append_right _ (substr_append_left _ hm)

/-- Supporting positive result for rendering: for a record with no images
whose definition strings all fail the `tag_match` pattern (every string the
scraper ordinarily produces — they start with `[` or a letter, not with a
backslash), rendering completes and the output contains the
"No images available." marker. -/
theorem render_htmlE_no_images (data : RenderData) (css_path : Option String)
    (h1 : data.image = "") (h2 : data.thumb = "")
    (h3 : ∀ d ∈ data.definitions, tag_match d = none) :
    ∃ out, render_htmlE data css_path = .ok out ∧
      Substr "No images available." out := by
  unfold render_htmlE
  dsimp only
  by_cases he : data.definitions.isEmpty
  · simp only [he, if_true]
    exact ⟨_, rfl, renderPage_contains_marker data css_path _ h1 h2⟩
  · simp only [he, if_false, reduceIte]
    obtain ⟨parts, hp⟩ := renderDefsE_ok data.definitions 0 h3
    rw [hp]
    exact ⟨_, rfl, renderPage_contains_marker data css_path _ h1 h2⟩

/-- C1: the claim's never-fatal contract is the source's clear intent (the
defensive default in `block.get("class", [""])[0]` exists precisely to
survive a missing attribute), but the code slips on a present, empty or
whitespace-only `class` attribute: BeautifulSoup ≥ 4.7.0 parses it to `[]`
and the indexing at line 281 raises `IndexError`, as `docC1bad` shows.  On
every document without such an attribute the parser does return a record
(`parse_cambridgeE_ok_of_wellClassed`). -/
theorem parse_raises_on_empty_class :
    Forest.wellClassed docC1bad = false ∧
    parse_cambridgeE docC1bad true =
      .error "IndexError: list index out of range" :=
  ⟨rfl, rfl⟩

/-- C9: the marker claim is the spec's clear intent, but `format_definition`
contains an unarguable slip: its `re.findall` pattern
`r"\\[([^\\]]+)\\]"` is syntactically invalid (the `(` falls inside the
character class, leaving the `)` unbalanced), so `re.findall` raises
`re.error` whenever the (valid) `tag_match` regex matches a definition
string.  Such strings are reachable: `docC9src` makes the parser itself
emit one.  Hence rendering `dataC9bad` — a record with empty image and
thumb — raises instead of producing the marker document. -/
theorem render_raises_on_matching_definition :
    dataC9bad.image = "" ∧ dataC9bad.thumb = "" ∧
    tag_match "\\[]\\]\\" = some ("\\[]\\]\\", "") ∧
    (parse_cambridge docC9src true).definitions = ["\\[]\\]\\"] ∧
    render_htmlE dataC9bad none =
      .error "re.error: unbalanced parenthesis at position 11" :=
  ⟨rfl, rfl, rfl, rfl, rfl⟩


end Cambridge
